import Mathlib

/-!
Shallow embedding of `LightDependentResistor.c` (light-sensor library:
calibration model + smoothing buffer) and proofs of its specified properties.

Modelling conventions:
* C `float`/`double` values are modelled as exact rationals (`ℚ`); the one
  transcendental operation, `pow(base, exponent)` with a non-integral
  exponent, is modelled as real `rpow` (`ℝ`).
* The C module's global mutable variables are gathered into one explicit
  state record `LDRState`, passed and returned explicitly.
* `uint16_t` / `uint32_t` raw codes and indices are modelled as `ℕ`
  (no arithmetic in the code can overflow them on the inputs considered).
* The float-to-`unsigned long` conversion of a non-negative value truncates
  toward zero, i.e. is `Int.floor` followed by `Int.toNat`.
-/

namespace LDR

/-- `#define OTHER_RESISTOR 3300` — divider resistor in ohms. -/
def OTHER_RESISTOR : ℕ := 3300

/-- `#define ADC_RESOLUTION_BITS 12` — default ADC resolution. -/
def ADC_RESOLUTION_BITS : ℕ := 12

/-- `#define SMOOTHING_HISTORY_SIZE 10` — default smoothing window. -/
def SMOOTHING_HISTORY_SIZE : ℕ := 10

/-- Capacity of the static array `_smoothing_history_values[100]`. -/
def HISTORY_ARRAY_LEN : ℕ := 100

/-- ADC full-scale code `pow(2, ADC_RESOLUTION_BITS) = 4096`. -/
def adcFullScale : ℕ := 2 ^ ADC_RESOLUTION_BITS

/-- The `ePhotoCellDeviceType` enum from the header. -/
inductive ePhotoCellDeviceType where
  | GL5516
  | GL5528
  | GL5537_1
  | GL5537_2
  | GL5539
  | GL5549
deriving DecidableEq

/-- The module's global state: `_mult_value`, `_pow_value`,
`_photocell_on_ground`, `_smoothing_sum`, `_smoothing_history_size`,
`_smoothing_history_next`, `_smoothing_history_values`. -/
structure LDRState where
  mult_value : ℚ
  pow_value : ℚ
  photocell_on_ground : Bool
  smoothing_sum : ℚ
  smoothing_history_size : ℕ
  smoothing_history_next : ℕ
  smoothing_history_values : ℕ → ℚ

/-- State at program start: C static objects are zero-initialized, so every
global float/int is `0` and the bool is `false`. -/
def powerOnState : LDRState :=
  { mult_value := 0
    pow_value := 0
    photocell_on_ground := false
    smoothing_sum := 0
    smoothing_history_size := 0
    smoothing_history_next := 0
    smoothing_history_values := fun _ => 0 }

/-- The `(mult_value, pow_value)` pair assigned by the `switch` in
`LDR_init` for each device preset (the `default` case coincides with
`GL5528`). -/
def presetParams : ePhotoCellDeviceType → ℚ × ℚ
  | .GL5516 => (29634400, 1.6689)
  | .GL5537_1 => (32435800, 1.4899)
  | .GL5537_2 => (2801820, 1.1772)
  | .GL5539 => (208510000, 1.4850)
  | .GL5549 => (44682100, 1.2750)
  | .GL5528 => (32017200, 1.5832)

/-- `LDR_init`: sets `_photocell_on_ground = false`, sets
`_smoothing_history_size = SMOOTHING_HISTORY_SIZE` clamped to the array
capacity, sets `(_mult_value, _pow_value)` from the preset, and writes the
sentinel `-1.0` into `_smoothing_history_values[0 .. size)`.  Note that the
C function does NOT touch `_smoothing_sum` or `_smoothing_history_next`;
those fields are carried over from the incoming state. -/
def LDR_init (typeDevice : ePhotoCellDeviceType) (s : LDRState) : LDRState :=
  let sz0 := SMOOTHING_HISTORY_SIZE
  let sz := if sz0 > HISTORY_ARRAY_LEN then HISTORY_ARRAY_LEN else sz0
  { mult_value := (presetParams typeDevice).1
    pow_value := (presetParams typeDevice).2
    photocell_on_ground := false
    smoothing_sum := s.smoothing_sum
    smoothing_history_size := sz
    smoothing_history_next := s.smoothing_history_next
    smoothing_history_values := fun i =>
      if i < sz then -1 else s.smoothing_history_values i }

/-- `LDR_setPhotocellPositionOnGround`. -/
def LDR_setPhotocellPositionOnGround (on_ground : Bool) (s : LDRState) :
    LDRState :=
  { s with photocell_on_ground := on_ground }

/-- `LDR_updatePhotocellParameters`. -/
def LDR_updatePhotocellParameters (mult_value pow_value : ℚ) (s : LDRState) :
    LDRState :=
  { s with mult_value := mult_value, pow_value := pow_value }

/-- `LDR_luxToFootCandles`: `intensity_in_lux / 10.764`. -/
def LDR_luxToFootCandles (intensity_in_lux : ℚ) : ℚ :=
  intensity_in_lux / 10.764

/-- `LDR_footCandlesToLux`: `10.764 * intensity_in_footcandles`. -/
def LDR_footCandlesToLux (intensity_in_footcandles : ℚ) : ℚ :=
  10.764 * intensity_in_footcandles

/-- The full-scale guard at the top of `LDR_rawAnalogValueToLux`:
`if (pow(2, ADC_RESOLUTION_BITS) == raw_analog_value) raw_analog_value--;`. -/
def guardedRaw (raw_analog_value : ℕ) : ℕ :=
  if raw_analog_value = adcFullScale then raw_analog_value - 1
  else raw_analog_value

/-- The divider ratio
`ratio = ((float)pow(2, ADC_RESOLUTION_BITS) / (float)raw_analog_value) - 1`
computed after the full-scale guard. -/
def ratioVal (raw_analog_value : ℕ) : ℚ :=
  (adcFullScale : ℚ) / (guardedRaw raw_analog_value : ℚ) - 1

/-- Truncation of a (non-negative) float to `unsigned long`. -/
def truncToNat (q : ℚ) : ℕ := (Int.toNat ⌊q⌋)

/-- The `unsigned long photocell_resistor` computed by
`LDR_rawAnalogValueToLux`: `OTHER_RESISTOR / ratio` when the photocell is on
the ground, `OTHER_RESISTOR * ratio` otherwise, truncated to an unsigned
integer. -/
def photocellResistor (on_ground : Bool) (raw_analog_value : ℕ) : ℕ :=
  if on_ground then truncToNat ((OTHER_RESISTOR : ℚ) / ratioVal raw_analog_value)
  else truncToNat ((OTHER_RESISTOR : ℚ) * ratioVal raw_analog_value)

/-- `LDR_rawAnalogValueToLux`: the return expression
`_mult_value / (float)pow(photocell_resistor, _pow_value)`, with the real
power function modelling `pow`. -/
noncomputable def LDR_rawAnalogValueToLux (s : LDRState)
    (raw_analog_value : ℕ) : ℝ :=
  (s.mult_value : ℝ) /
    ((photocellResistor s.photocell_on_ground raw_analog_value : ℝ) ^
      ((s.pow_value : ℚ) : ℝ))

/-- `LDR_getCurrentLux` is a direct wrapper around
`LDR_rawAnalogValueToLux`. -/
noncomputable def LDR_getCurrentLux (s : LDRState) (rawAnalogValue : ℕ) : ℝ :=
  LDR_rawAnalogValueToLux s rawAnalogValue

/-- The inverse power law `I[lux] = mult_value / (R ^ pow_value)` used on
the return line of `LDR_rawAnalogValueToLux`, as a function of the
resistance. -/
noncomputable def resistanceToIlluminance (mult_value pow_value r : ℝ) : ℝ :=
  mult_value / r ^ pow_value

/-- Pointwise write into the history array:
`_smoothing_history_values[k] = v`. -/
def writeSlot (h : ℕ → ℚ) (k : ℕ) (v : ℚ) : ℕ → ℚ :=
  fun i => if i = k then v else h i

/-- One step of `LDR_getSmoothedLux`, factored over the instantaneous lux
sample: the C function computes `LDR_getCurrentLux(rawAnalogValue)` exactly
once per branch and otherwise only manipulates the smoothing state, so the
state machine is this function applied at `lux =
LDR_getCurrentLux(rawAnalogValue)`.  Returns `(sumResult, new state)`. -/
def LDR_getSmoothedLux_step (lux : ℚ) (s : LDRState) : ℚ × LDRState :=
  if s.smoothing_history_size = 0 then
    (lux, s)
  else if s.smoothing_history_values s.smoothing_history_next < -0.1 then
    let values := writeSlot s.smoothing_history_values s.smoothing_history_next lux
    let sum := s.smoothing_sum + lux
    if s.smoothing_history_next < s.smoothing_history_size - 1 then
      (sum / ((s.smoothing_history_next + 1 : ℕ) : ℚ),
        { s with smoothing_history_values := values
                 smoothing_sum := sum
                 smoothing_history_next := s.smoothing_history_next + 1 })
    else
      (sum / ((s.smoothing_history_size : ℕ) : ℚ),
        { s with smoothing_history_values := values
                 smoothing_sum := sum
                 smoothing_history_next := 0 })
  else
    let values := writeSlot s.smoothing_history_values s.smoothing_history_next lux
    let sum := s.smoothing_sum - s.smoothing_history_values s.smoothing_history_next + lux
    let nxt := if s.smoothing_history_next < s.smoothing_history_size - 1 then
      s.smoothing_history_next + 1 else 0
    (sum / ((s.smoothing_history_size : ℕ) : ℚ),
      { s with smoothing_history_values := values
               smoothing_sum := sum
               smoothing_history_next := nxt })

/-- Iterated smoothing: feed a list of instantaneous lux samples through
successive `LDR_getSmoothedLux` steps, collecting the returned averages. -/
def runSmoothed : List ℚ → LDRState → List ℚ × LDRState
  | [], s => ([], s)
  | lux :: rest, s =>
      let out := LDR_getSmoothedLux_step lux s
      let outs := runSmoothed rest out.2
      (out.1 :: outs.1, outs.2)

/-- `LDR_getSmoothedFootCandles`, factored over the instantaneous lux sample
like `LDR_getSmoothedLux_step`. -/
def LDR_getSmoothedFootCandles_step (lux : ℚ) (s : LDRState) : ℚ × LDRState :=
  let out := LDR_getSmoothedLux_step lux s
  (LDR_luxToFootCandles out.1, out.2)

/-- A freshly initialized smoothing buffer of capacity `c`: every slot in
`[0, c)` holds the sentinel `-1`, the running sum is `0`, and the write
index is `0` (the state `LDR_init` produces from `powerOnState` has exactly
this smoothing part, with `c = 10`). -/
def freshBuffer (c : ℕ) : LDRState :=
  { mult_value := 0
    pow_value := 0
    photocell_on_ground := false
    smoothing_sum := 0
    smoothing_history_size := c
    smoothing_history_next := 0
    smoothing_history_values := fun i => if i < c then -1 else 0 }

/-- Sum of the non-sentinel ("filled") entries among the first `n` slots of
the history array; a slot counts as filled exactly when the code's test
`_smoothing_history_values[i] < -0.1f` fails. -/
def validSum (h : ℕ → ℚ) (n : ℕ) : ℚ :=
  ∑ i in Finset.range n, (if -0.1 ≤ h i then h i else 0)

/-- The smoothing-buffer invariant: the running sum equals the sum of the
non-sentinel entries of the (active part of the) history array, and the
next-write index is inside the buffer. -/
def SmoothInv (s : LDRState) : Prop :=
  s.smoothing_sum = validSum s.smoothing_history_values s.smoothing_history_size ∧
  s.smoothing_history_next < s.smoothing_history_size

end LDR

namespace LDR

lemma writeSlot_self (h : ℕ → ℚ) (k : ℕ) (v : ℚ) : writeSlot h k v k = v := by
  simp [writeSlot]

lemma writeSlot_ne (h : ℕ → ℚ) (k : ℕ) (v : ℚ) (i : ℕ) (hik : i ≠ k) :
    writeSlot h k v i = h i := by
  simp [writeSlot, hik]

lemma validSum_writeSlot (h : ℕ → ℚ) (n k : ℕ) (v : ℚ) (hk : k < n) :
    validSum (writeSlot h k v) n =
      validSum h n - (if -0.1 ≤ h k then h k else 0) +
        (if -0.1 ≤ v then v else 0) := by
  have hm : k ∈ Finset.range n := Finset.mem_range.mpr hk
  unfold validSum
  rw [← Finset.add_sum_erase _
        (fun i => if -0.1 ≤ writeSlot h k v i then writeSlot h k v i else 0) hm,
      ← Finset.add_sum_erase _ (fun i => if -0.1 ≤ h i then h i else 0) hm]
  have hsum : ∑ i in (Finset.range n).erase k,
        (if -0.1 ≤ writeSlot h k v i then writeSlot h k v i else 0) =
      ∑ i in (Finset.range n).erase k, (if -0.1 ≤ h i then h i else 0) := by
    refine Finset.sum_congr rfl ?_
    intro i hi
    rw [writeSlot_ne _ _ _ _ (Finset.ne_of_mem_erase hi)]
  rw [hsum, writeSlot_self]
  ring

lemma smoothedStep_size (lux : ℚ) (s : LDRState) :
    ((LDR_getSmoothedLux_step lux s).2).smoothing_history_size =
      s.smoothing_history_size := by
  dsimp only [LDR_getSmoothedLux_step]
  split
  · rfl
  split
  · split <;> rfl
  · rfl

lemma smoothedStep_preserves_inv (lux : ℚ) (s : LDRState) (hl : 0 ≤ lux)
    (hpos : 0 < s.smoothing_history_size) (hinv : SmoothInv s) :
    SmoothInv (LDR_getSmoothedLux_step lux s).2 := by
  obtain ⟨hsum, hlt⟩ := hinv
  have hne : s.smoothing_history_size ≠ 0 := Nat.pos_iff_ne_zero.mp hpos
  have hluxle : (-0.1 : ℚ) ≤ lux := le_trans (by norm_num) hl
  dsimp only [LDR_getSmoothedLux_step]
  rw [if_neg hne]
  by_cases hsent : s.smoothing_history_values s.smoothing_history_next < -0.1
  · rw [if_pos hsent]
    by_cases hn : s.smoothing_history_next < s.smoothing_history_size - 1
    · rw [if_pos hn]
      refine ⟨?_, ?_⟩
      · show s.smoothing_sum + lux = validSum _ s.smoothing_history_size
        rw [validSum_writeSlot _ _ _ _ hlt, if_neg (not_le.mpr hsent),
          if_pos hluxle, ← hsum]
        ring
      · show s.smoothing_history_next + 1 < s.smoothing_history_size
        omega
    · rw [if_neg hn]
      refine ⟨?_, hpos⟩
      show s.smoothing_sum + lux = validSum _ s.smoothing_history_size
      rw [validSum_writeSlot _ _ _ _ hlt, if_neg (not_le.mpr hsent),
        if_pos hluxle, ← hsum]
      ring
  · rw [if_neg hsent]
    refine ⟨?_, ?_⟩
    · show s.smoothing_sum - s.smoothing_history_values s.smoothing_history_next +
          lux = validSum _ s.smoothing_history_size
      rw [validSum_writeSlot _ _ _ _ hlt, if_pos (not_lt.mp hsent),
        if_pos hluxle, ← hsum]
    · show (if s.smoothing_history_next < s.smoothing_history_size - 1 then
          s.smoothing_history_next + 1 else 0) < s.smoothing_history_size
      split <;> omega

lemma runSmoothed_preserves_inv (samples : List ℚ) (s : LDRState)
    (hs : ∀ x ∈ samples, 0 ≤ x) (hpos : 0 < s.smoothing_history_size)
    (hinv : SmoothInv s) : SmoothInv (runSmoothed samples s).2 := by
  induction samples generalizing s with
  | nil => exact hinv
  | cons a rest ih =>
      dsimp only [runSmoothed]
      refine ih ((LDR_getSmoothedLux_step a s).2)
        (fun x hx => hs x (List.mem_cons_of_mem a hx)) ?_ ?_
      · rw [smoothedStep_size]; exact hpos
      · exact smoothedStep_preserves_inv a s (hs a (List.mem_cons_self a rest))
          hpos hinv

lemma freshBuffer_inv (c : ℕ) (hc : 0 < c) : SmoothInv (freshBuffer c) := by
  refine ⟨?_, ?_⟩
  · show (0 : ℚ) = validSum (fun i => if i < c then -1 else 0) c
    symm
    apply Finset.sum_eq_zero
    intro i hi
    rw [Finset.mem_range] at hi
    norm_num [hi]
  · exact hc

lemma smoothedStep_disabled (lux : ℚ) (s : LDRState)
    (h : s.smoothing_history_size = 0) :
    LDR_getSmoothedLux_step lux s = (lux, s) := by
  dsimp only [LDR_getSmoothedLux_step]
  rw [if_pos h]

lemma runSmoothed_disabled (samples : List ℚ) (s : LDRState)
    (h : s.smoothing_history_size = 0) :
    runSmoothed samples s = (samples, s) := by
  induction samples with
  | nil => rfl
  | cons a rest ih =>
      dsimp only [runSmoothed]
      rw [smoothedStep_disabled a s h, ih]

end LDR

namespace LDR

/-- C1: contrary to the claim, `LDR_init` does not reset the smoothing buffer
to its initial empty state: it writes the sentinel into the history slots but
carries `_smoothing_sum` and `_smoothing_history_next` over unchanged.  After
one smoothed read of sample 10 on a fresh buffer, re-initialization leaves
running sum 10 and write index 1, and the first smoothed read of sample 20
after re-initialization returns 15, not the 20 returned by a brand-new buffer
fed the same sample. -/
theorem LDR_init_stale_smoothing :
    (LDR_init .GL5528 (LDR_getSmoothedLux_step 10
        (LDR_init .GL5528 powerOnState)).2).smoothing_sum = 10 ∧
    (LDR_init .GL5528 (LDR_getSmoothedLux_step 10
        (LDR_init .GL5528 powerOnState)).2).smoothing_history_next = 1 ∧
    (LDR_getSmoothedLux_step 20 (LDR_init .GL5528 (LDR_getSmoothedLux_step 10
        (LDR_init .GL5528 powerOnState)).2)).1 = 15 ∧
    (LDR_getSmoothedLux_step 20 (LDR_init .GL5528 powerOnState)).1 = 20 ∧
    (LDR_getSmoothedLux_step 20 (LDR_init .GL5528 (LDR_getSmoothedLux_step 10
        (LDR_init .GL5528 powerOnState)).2)).1 ≠
      (LDR_getSmoothedLux_step 20 (LDR_init .GL5528 powerOnState)).1 := by
  refine ⟨?_, ?_, ?_, ?_, ?_⟩ <;>
    norm_num [LDR_getSmoothedLux_step, LDR_init, powerOnState, writeSlot,
      presetParams, SMOOTHING_HISTORY_SIZE, HISTORY_ARRAY_LEN]

/-- C2: from a freshly initialized smoothing buffer of capacity 3, the four
successive `LDR_getSmoothedLux` steps on instantaneous lux samples
10, 20, 30, 40 return the averages 10, 15, 20, 30: the Filling phase divides
by the number of samples written so far, and the first Steady step divides by
the capacity after evicting the oldest sample. -/
theorem getSmoothedLux_capacity3_sequence :
    (runSmoothed [10, 20, 30, 40] (freshBuffer 3)).1 = [10, 15, 20, 30] := by
  norm_num [runSmoothed, LDR_getSmoothedLux_step, freshBuffer, writeSlot]

/-- C3: every `LDR_getSmoothedLux` step on a nonnegative lux sample preserves
the smoothing-buffer invariant (running sum = sum of the non-sentinel history
entries, and next-write index inside `[0, capacity)`), and consequently the
invariant holds in every state reachable from a freshly initialized buffer of
positive capacity by a sequence of such steps. -/
theorem getSmoothedLux_invariant :
    (∀ (lux : ℚ) (s : LDRState), 0 ≤ lux → 0 < s.smoothing_history_size →
      SmoothInv s → SmoothInv (LDR_getSmoothedLux_step lux s).2) ∧
    (∀ (c : ℕ) (samples : List ℚ), 0 < c → (∀ x ∈ samples, 0 ≤ x) →
      SmoothInv (runSmoothed samples (freshBuffer c)).2) :=
  ⟨fun lux s hl hpos hinv => smoothedStep_preserves_inv lux s hl hpos hinv,
   fun c samples hc hs => runSmoothed_preserves_inv samples (freshBuffer c) hs
     hc (freshBuffer_inv c hc)⟩

/-- Witness for C3 at concrete inputs. -/
theorem getSmoothedLux_invariant_witness :
    SmoothInv (LDR_getSmoothedLux_step 3 (freshBuffer 2)).2 ∧
    SmoothInv (runSmoothed [5, 7, 9] (freshBuffer 2)).2 :=
  ⟨getSmoothedLux_invariant.1 3 (freshBuffer 2) (by norm_num)
      (by norm_num [freshBuffer]) (freshBuffer_inv 2 (by norm_num)),
   getSmoothedLux_invariant.2 2 [5, 7, 9] (by norm_num)
      (by intro x hx; fin_cases hx <;> norm_num)⟩

/-- C4: for every calibration state, the raw-to-resistance conversion at the
full-scale code `2 ^ ADC_RESOLUTION_BITS` divides by the decremented (hence
nonzero) raw code and produces exactly the same ratio, resistor value and lux
as the conversion at `fullScale - 1`. -/
theorem rawToResistance_fullScale_guard (s : LDRState) :
    guardedRaw adcFullScale ≠ 0 ∧
    ratioVal adcFullScale ≠ 0 ∧
    ratioVal adcFullScale = ratioVal (adcFullScale - 1) ∧
    photocellResistor s.photocell_on_ground adcFullScale =
      photocellResistor s.photocell_on_ground (adcFullScale - 1) ∧
    LDR_rawAnalogValueToLux s adcFullScale =
      LDR_rawAnalogValueToLux s (adcFullScale - 1) := by
  have hg : guardedRaw adcFullScale = guardedRaw (adcFullScale - 1) := by
    norm_num [guardedRaw, adcFullScale, ADC_RESOLUTION_BITS]
  have hr : ratioVal adcFullScale = ratioVal (adcFullScale - 1) := by
    unfold ratioVal
    rw [hg]
  have hres : ∀ b, photocellResistor b adcFullScale =
      photocellResistor b (adcFullScale - 1) := by
    intro b
    unfold photocellResistor
    rw [hr]
  refine ⟨?_, ?_, hr, hres _, ?_⟩
  · norm_num [guardedRaw, adcFullScale, ADC_RESOLUTION_BITS]
  · norm_num [ratioVal, guardedRaw, adcFullScale, ADC_RESOLUTION_BITS]
  · unfold LDR_rawAnalogValueToLux
    rw [hres]

/-- C5: with smoothing capacity 0, every `LDR_getSmoothedLux` step returns
the instantaneous lux value unchanged and leaves the state untouched, and
hence so does any sequence of such steps. -/
theorem getSmoothedLux_disabled_passthrough :
    (∀ (lux : ℚ) (s : LDRState), s.smoothing_history_size = 0 →
      LDR_getSmoothedLux_step lux s = (lux, s)) ∧
    (∀ (samples : List ℚ) (s : LDRState), s.smoothing_history_size = 0 →
      runSmoothed samples s = (samples, s)) :=
  ⟨smoothedStep_disabled, runSmoothed_disabled⟩

/-- Witness for C5 at concrete inputs. -/
theorem getSmoothedLux_disabled_passthrough_witness :
    LDR_getSmoothedLux_step 7 (freshBuffer 0) = (7, freshBuffer 0) ∧
    runSmoothed [7, 8] (freshBuffer 0) = ([7, 8], freshBuffer 0) :=
  ⟨getSmoothedLux_disabled_passthrough.1 7 (freshBuffer 0) rfl,
   getSmoothedLux_disabled_passthrough.2 [7, 8] (freshBuffer 0) rfl⟩

/-- C6: for positive multiplier and exponent, the inverse power law
`lux = mult / r ^ p` is strictly decreasing in the resistance over `r > 0`. -/
theorem resistanceToIlluminance_strictAnti (m p r₁ r₂ : ℝ) (hm : 0 < m)
    (hp : 0 < p) (hr₁ : 0 < r₁) (hr : r₁ < r₂) :
    resistanceToIlluminance m p r₂ < resistanceToIlluminance m p r₁ := by
  unfold resistanceToIlluminance
  exact div_lt_div_of_pos_left hm (Real.rpow_pos_of_pos hr₁ p)
    (Real.rpow_lt_rpow hr₁.le hr hp)

/-- Witness for C6 at concrete inputs. -/
theorem resistanceToIlluminance_strictAnti_witness :
    resistanceToIlluminance 1 1 2 < resistanceToIlluminance 1 1 1 :=
  resistanceToIlluminance_strictAnti 1 1 1 2 one_pos one_pos one_pos
    one_lt_two

/-- C7: the lux/footcandle conversions, with their literal asymmetric
formulas (divide by 10.764 one way, multiply by 10.764 the other), are exact
mutual inverses in the rational model, so each round trip returns its input
(in particular it is within any floating-point tolerance). -/
theorem luxFootCandles_roundTrip (x : ℚ) :
    LDR_luxToFootCandles (LDR_footCandlesToLux x) = x ∧
    LDR_footCandlesToLux (LDR_luxToFootCandles x) = x := by
  unfold LDR_luxToFootCandles LDR_footCandlesToLux
  constructor
  · rw [mul_comm, mul_div_assoc, div_self (by norm_num : (10.764 : ℚ) ≠ 0),
      mul_one]
  · rw [mul_comm, div_mul_cancel₀ _ (by norm_num : (10.764 : ℚ) ≠ 0)]

/-- C8: the conversion performs no validation of a zero raw sample: under the
precondition `rawCode ≥ 1` the divisor of the ratio computation (the raw code
after the full-scale guard) is nonzero, while `rawCode = 0` passes the guard
unchanged and is used directly as a zero divisor. -/
theorem rawZero_no_validation :
    (∀ raw_analog_value : ℕ, 1 ≤ raw_analog_value →
      (guardedRaw raw_analog_value : ℚ) ≠ 0) ∧
    guardedRaw 0 = 0 := by
  constructor
  · intro raw h1
    unfold guardedRaw
    split
    · next heq => subst heq; norm_num [adcFullScale, ADC_RESOLUTION_BITS]
    · exact Nat.cast_ne_zero.mpr (by omega)
  · decide

/-- Witness for C8 at concrete inputs. -/
theorem rawZero_no_validation_witness :
    (guardedRaw 5 : ℚ) ≠ 0 ∧ guardedRaw 0 = 0 :=
  ⟨rawZero_no_validation.1 5 (by norm_num), rawZero_no_validation.2⟩

/-- C9: `LDR_init` unconditionally resets the wiring-orientation flag to
`false` regardless of the device preset, discarding any orientation
previously set through `LDR_setPhotocellPositionOnGround true`. -/
theorem LDR_init_resets_orientation (t : ePhotoCellDeviceType) (s : LDRState) :
    (LDR_init t s).photocell_on_ground = false ∧
    (LDR_init t (LDR_setPhotocellPositionOnGround true s)).photocell_on_ground
      = false :=
  ⟨rfl, rfl⟩

/-- C10: in the non-grounded orientation, whenever the divider formula yields
a (nonnegative) resistance strictly below 1 ohm, the truncation to an
unsigned integer makes the stored resistance 0, and the returned lux is the
multiplier divided by zero. -/
theorem truncatedResistor_zero_divides_by_zero (s : LDRState)
    (raw_analog_value : ℕ) (hg : s.photocell_on_ground = false)
    (h0 : 0 ≤ (OTHER_RESISTOR : ℚ) * ratioVal raw_analog_value)
    (h1 : (OTHER_RESISTOR : ℚ) * ratioVal raw_analog_value < 1)
    (hp : s.pow_value ≠ 0) :
    photocellResistor s.photocell_on_ground raw_analog_value = 0 ∧
    LDR_rawAnalogValueToLux s raw_analog_value = (s.mult_value : ℝ) / 0 := by
  have hfloor : ⌊(OTHER_RESISTOR : ℚ) * ratioVal raw_analog_value⌋ = 0 :=
    Int.floor_eq_zero_iff.mpr ⟨h0, h1⟩
  have hres : photocellResistor s.photocell_on_ground raw_analog_value = 0 := by
    rw [hg]
    simp [photocellResistor, truncToNat, hfloor]
  refine ⟨hres, ?_⟩
  unfold LDR_rawAnalogValueToLux
  rw [hres, Nat.cast_zero, Real.zero_rpow (by exact_mod_cast hp)]

/-- Witness for C10 at the concrete raw code 4095 in the default
configuration. -/
theorem truncatedResistor_zero_witness :
    photocellResistor (LDR_init .GL5528 powerOnState).photocell_on_ground
      4095 = 0 ∧
    LDR_rawAnalogValueToLux (LDR_init .GL5528 powerOnState) 4095 =
      ((LDR_init .GL5528 powerOnState).mult_value : ℝ) / 0 :=
  truncatedResistor_zero_divides_by_zero (LDR_init .GL5528 powerOnState) 4095
    rfl
    (by norm_num [ratioVal, guardedRaw, adcFullScale, ADC_RESOLUTION_BITS,
      OTHER_RESISTOR])
    (by norm_num [ratioVal, guardedRaw, adcFullScale, ADC_RESOLUTION_BITS,
      OTHER_RESISTOR])
    (by norm_num [LDR_init, presetParams])

end LDR
